import Mathlib

/-!
Verification of the hyrox_data_cleaning pipeline (src/hyrox_data_cleaning.py).

The per-row derivations of the script are shallowly embedded as executable
Lean functions over `String` / `List Char` / `Int`:

* `fix_event_name`          — step 2, the `event_corrections` lookup;
* `is_championship`         — step 3, case-insensitive substring test;
* `event_year`              — step 4, `str.extract(r'(\d{4})')` + `astype('Int64')`;
* `extract_city`            — step 4, with Python exceptions made explicit
                              as `Except` errors;
* `time_to_seconds`         — step 5, duration parsing;
* `check_valid_completion`  — step 6, completion validation;
* `create_mongo_document`   — step 8, document assembly over a JSON value type;
* `renderJ` / `json_loads`  — step 9, `json.dumps(..., ensure_ascii=False)`
                              and a JSON reader for the round-trip property.

Python-specific primitives (`str.split`, `int(...)`, `in`, `str.contains`)
are modelled char-by-char on `List Char`.  ASCII approximations are noted
where Python accepts wider Unicode classes; the affected inputs do not
occur in the modelled dataset.
-/

/- ================================================================
   Generic character/string helpers modelling Python primitives
   ================================================================ -/

/-- Value of a list of ASCII decimal digits, most significant first
(the way both `int(...)` and pandas' `astype('Int64')` read a digit string). -/
def digitsToNat (ds : List Char) : Nat :=
  ds.foldl (fun a c => a * 10 + (c.toNat - 48)) 0

/-- Python `pat in s` (substring containment), on char lists. -/
def containsSub (pat : List Char) : List Char → Bool
  | [] => pat.isEmpty
  | c :: tl => pat.isPrefixOf (c :: tl) || containsSub pat tl

/-- The text before the first occurrence of `pat`, i.e. Python
`s.split(pat)[0]` (the whole string when `pat` does not occur). -/
def takeBefore (pat : List Char) : List Char → List Char
  | [] => []
  | c :: tl => if pat.isPrefixOf (c :: tl) then [] else c :: takeBefore pat tl

/-- Core of Python `str.split()` (split on whitespace runs, no empties). -/
def splitWSCore : List Char → List Char → List (List Char)
  | [], acc => if acc.isEmpty then [] else [acc.reverse]
  | c :: cs, acc =>
    if c.isWhitespace then
      if acc.isEmpty then splitWSCore cs [] else acc.reverse :: splitWSCore cs []
    else splitWSCore cs (c :: acc)

/-- Python `s.split()`: whitespace-delimited tokens, empties dropped. -/
def pySplitWS (s : String) : List String :=
  (splitWSCore s.data []).map String.mk

/-- Python `s.split(maxsplit=2)`: at most two splits; the third element,
when present, is the remainder of the string verbatim (leading whitespace
of the remainder stripped, trailing whitespace kept). -/
def pySplitWSMax2 (s : String) : List String :=
  let r0 := s.data.dropWhile Char.isWhitespace
  if r0.isEmpty then []
  else
    let t1 := r0.takeWhile (fun c => !c.isWhitespace)
    let r1 := (r0.dropWhile (fun c => !c.isWhitespace)).dropWhile Char.isWhitespace
    if r1.isEmpty then [String.mk t1]
    else
      let t2 := r1.takeWhile (fun c => !c.isWhitespace)
      let r2 := (r1.dropWhile (fun c => !c.isWhitespace)).dropWhile Char.isWhitespace
      if r2.isEmpty then [String.mk t1, String.mk t2]
      else [String.mk t1, String.mk t2, String.mk r2]

/-- Core of Python `s.split(':')`: split at every colon, keeping empties;
`"".split(':') == ['']`. -/
def splitColonCore : List Char → List Char → List (List Char)
  | [], acc => [acc.reverse]
  | c :: cs, acc =>
    if c = ':' then acc.reverse :: splitColonCore cs []
    else splitColonCore cs (c :: acc)

/-- Python `s.split(':')`. -/
def pySplitColon (s : String) : List String :=
  (splitColonCore s.data []).map String.mk

/-- Strip whitespace from both ends (as `int(...)` does before parsing). -/
def stripWS (cs : List Char) : List Char :=
  ((cs.dropWhile Char.isWhitespace).reverse.dropWhile Char.isWhitespace).reverse

/-- A nonempty all-digit char list parsed to a `Nat`, else `none`. -/
def parseDigits (ds : List Char) : Option Nat :=
  if !ds.isEmpty && ds.all Char.isDigit then some (digitsToNat ds) else none

/-- Sign handling of `int(...)` after whitespace stripping. -/
def pyIntCore : List Char → Option Int
  | '+' :: ds => (parseDigits ds).map (fun n => (n : Int))
  | '-' :: ds => (parseDigits ds).map (fun n => -(n : Int))
  | ds => (parseDigits ds).map (fun n => (n : Int))

/-- ASCII model of the Python builtin `int(str)`: optional surrounding
whitespace, an optional sign, then one or more ASCII decimal digits;
`none` models a raised `ValueError`.  (Python additionally accepts
underscore digit grouping and non-ASCII digits; such inputs do not occur
in the dataset and are not modelled.) -/
def pyInt (s : String) : Option Int :=
  pyIntCore (stripWS s.data)

/-- Python `s.isdigit()` (ASCII digits; nonempty). -/
def pyIsdigit (s : String) : Bool :=
  !s.data.isEmpty && s.data.all Char.isDigit

/- ================================================================
   Step 2 — fix event names (`event_corrections`)
   ================================================================ -/

/-- The static correction table of src/hyrox_data_cleaning.py, step 2. -/
def event_corrections : List (String × String) :=
  [("JGDMS4JI5C9", "S6 2023 Munich"),
   ("JGDMS4JI464", "S5 2023 Munich"),
   ("2EFMS4JI2BE", "S4 2022 Munich"),
   ("JGDMS4JI46D", "S6 2023 Malmo"),
   ("JGDMS4JI468", "S5 2023 Koln")]

/-- Association-list lookup (Python dict `.get` / `Series.map`). -/
def assocLookup : List (String × String) → String → Option String
  | [], _ => none
  | (k, v) :: tl, key => if k = key then some v else assocLookup tl key

/-- The event-identifying part of a row, as read and written by step 2. -/
structure EventRow where
  event_id : String
  event_name : String
deriving DecidableEq, Repr

/-- Step 2, per row: `df.loc[df['event_id'].isin(event_corrections.keys()),
'event_name'] = df['event_id'].map(event_corrections)`. -/
def fix_event_name (r : EventRow) : EventRow :=
  match assocLookup event_corrections r.event_id with
  | some nm => { r with event_name := nm }
  | none => r

/- ================================================================
   Step 3 — championship flag
   ================================================================ -/

/-- Step 3: `df['event_name'].str.contains('Championship', case=False,
na=False)` — case-insensitive substring test (per-row; the `na=False`
default only concerns missing names, which are outside the row model). -/
def is_championship (event_name : String) : Bool :=
  containsSub ("championship".data) (event_name.data.map Char.toLower)

/- ================================================================
   Step 4 — event year and city
   ================================================================ -/

/-- The first four chars when they are all digits (one attempted match of
the regex `\d{4}` at the head position). -/
def fourDigitsAt : List Char → Option (List Char)
  | a :: b :: c :: d :: _ =>
    if a.isDigit && b.isDigit && c.isDigit && d.isDigit then some [a, b, c, d]
    else none
  | _ => none

/-- Leftmost match of `\d{4}`: scan positions left to right, returning the
first run of four consecutive ASCII digits.  Models
`df['event_name'].str.extract(r'(\d{4})')` per row (NaN when no match). -/
def findFourDigits : List Char → Option (List Char)
  | [] => none
  | c :: tl =>
    match fourDigitsAt (c :: tl) with
    | some r => some r
    | none => findFourDigits tl

/-- Step 4 year derivation: the regex extraction composed with the
`astype('Int64')` conversion of the captured digit string (NA when the
regex found nothing). -/
def event_year (event_name : String) : Option Nat :=
  (findFourDigits event_name.data).map digitsToNat

/-- First index whose token is a 4-digit numeric token: the loop
`for i, part in enumerate(parts): if part.isdigit() and len(part) == 4`. -/
def firstFourDigitTokenIdx : List String → Option Nat
  | [] => none
  | p :: tl =>
    if pyIsdigit p && p.length == 4 then some 0
    else (firstFourDigitTokenIdx tl).map (· + 1)

/-- Step 4 `extract_city(row)`.  Python exceptions are made explicit:
`.error "IndexError"` models `[-1]` on an empty token list, and
`.error "UnboundLocalError"` models `return city` with the local `city`
never assigned (championship name with no ` - ` separator, no non-final
`Championships` token and no 4-digit token). -/
def extract_city (event_name : String) (is_champ : Bool) :
    Except String (Option String) :=
  if is_champ then
    if containsSub (" - ".data) event_name.data then
      -- city = event_name.split(' - ')[0]; city = city.split(maxsplit=2)[-1]
      match (pySplitWSMax2 (String.mk (takeBefore (" - ".data) event_name.data))).getLast? with
      | some c => .ok (some c)
      | none => .error "IndexError"
    else if containsSub ("Championships".data) event_name.data
        && ((pySplitWS event_name).getLast?).any (fun t => t != "Championships") then
      -- city = event_name.split()[-1]
      match (pySplitWS event_name).getLast? with
      | some c => .ok (some c)
      | none => .error "IndexError"
    else
      -- loop over tokens looking for a 4-digit numeric token
      match firstFourDigitTokenIdx (pySplitWS event_name) with
      | some i =>
        .ok ((pySplitWS event_name).get? (i + 1))
      | none => .error "UnboundLocalError"
  else
    -- parts = event_name.split(maxsplit=2); city = parts[2] if len > 2 else None
    let parts := pySplitWSMax2 event_name
    .ok (parts.get? 2)

/-- The pipeline composition `df.apply(extract_city, axis=1)`: the flag
column read by `extract_city` is the step-3 derivation. -/
def extract_city_row (event_name : String) : Except String (Option String) :=
  extract_city event_name (is_championship event_name)

/- ================================================================
   Step 5 — time strings to seconds
   ================================================================ -/

/-- Step 5 `time_to_seconds(time_str)`.  `none` models a missing value
(`pd.isna`); a failed `int(...)` inside the `try` is swallowed to `0`. -/
def time_to_seconds (t : Option String) : Int :=
  match t with
  | none => 0
  | some s =>
    if s = "" ∨ s = "0:00:00" then 0
    else
      match pySplitColon s with
      | [p0, p1, p2] =>
        match pyInt p0, pyInt p1, pyInt p2 with
        | some h, some m, some sec => h * 3600 + m * 60 + sec
        | _, _, _ => 0
      | [p0, p1] =>
        match pyInt p0, pyInt p1 with
        | some m, some sec => m * 60 + sec
        | _, _ => 0
      | _ => 0

/-- `time_to_seconds` with the `time_str == '0:00:00'` disjunct removed
(the rest verbatim), for the redundancy claim. -/
def time_to_seconds_noZero (t : Option String) : Int :=
  match t with
  | none => 0
  | some s =>
    if s = "" then 0
    else
      match pySplitColon s with
      | [p0, p1, p2] =>
        match pyInt p0, pyInt p1, pyInt p2 with
        | some h, some m, some sec => h * 3600 + m * 60 + sec
        | _, _, _ => 0
      | [p0, p1] =>
        match pyInt p0, pyInt p1 with
        | some m, some sec => m * 60 + sec
        | _, _ => 0
      | _ => 0

/- ================================================================
   Step 6 — completion validation
   ================================================================ -/

/-- The seconds columns of one row read by `check_valid_completion`
(indexed by the split number `i`, meaningful for `i ∈ 1..8`). -/
structure SecondsRow where
  run_seconds : Nat → Int
  work_seconds : Nat → Int
  roxzone_seconds : Nat → Int

/-- Step 6 `check_valid_completion(row)`: for `i in range(1, 9)`, return
`False` as soon as `run_i_seconds ≤ 0` or `work_i_seconds ≤ 0`, else
`True`. -/
def check_valid_completion (row : SecondsRow) : Bool :=
  (List.range' 1 8).all fun i =>
    !(decide (row.run_seconds i ≤ 0) || decide (row.work_seconds i ≤ 0))

/- ================================================================
   Steps 8/9 — JSON values, document assembly, serialization
   ================================================================ -/

/-- JSON values as produced by the pipeline and read back by a JSON
reader.  Numbers are restricted to integers — the only numeric shape the
pipeline emits (`int(...)` coercions and `None`). -/
inductive JValue where
  | null
  | bool (b : Bool)
  | int (n : Int)
  | str (s : String)
  | arr (xs : List JValue)
  | obj (kvs : List (String × JValue))

/-- The opening brace character. -/
def lcurly : Char := Char.ofNat 123

/-- The closing brace character. -/
def rcurly : Char := Char.ofNat 125

/-- Lowercase hexadecimal digit for a nibble. -/
def hexDigitChar (n : Nat) : Char :=
  Char.ofNat (if n < 10 then 48 + n else 87 + n)

/-- `json.dumps(..., ensure_ascii=False)` escaping of one character: only
the quote, the backslash and control characters below 0x20 are escaped
(the named escapes plus `\u00xx`); every other character, non-ASCII
included, is emitted literally. -/
def escChar (c : Char) : List Char :=
  if c = '"' then ['\\', '"']
  else if c = '\\' then ['\\', '\\']
  else if c = '\n' then ['\\', 'n']
  else if c = '\r' then ['\\', 'r']
  else if c = '\t' then ['\\', 't']
  else if c.toNat = 8 then ['\\', 'b']
  else if c.toNat = 12 then ['\\', 'f']
  else if c.toNat < 32 then
    ['\\', 'u', '0', '0', hexDigitChar (c.toNat / 16), hexDigitChar (c.toNat % 16)]
  else [c]

/-- Escape every character of a string body. -/
def escList : List Char → List Char
  | [] => []
  | c :: cs => escChar c ++ escList cs

/-- A JSON string literal. -/
def renderString (s : String) : List Char :=
  '"' :: (escList s.data ++ ['"'])

/-- Decimal digits of `n`, most significant first. -/
def ndigits (n : Nat) : List Char :=
  if _h : n < 10 then [Char.ofNat (48 + n)]
  else ndigits (n / 10) ++ [Char.ofNat (48 + n % 10)]
decreasing_by exact Nat.div_lt_self (by omega) (by omega)

/-- Python `repr` of an int, as emitted by `json.dumps`. -/
def renderInt (n : Int) : List Char :=
  if n < 0 then '-' :: ndigits n.natAbs else ndigits n.toNat

mutual

/-- `json.dumps(v, ensure_ascii=False)` with the default separators
`', '` and `': '`, char by char. -/
def renderJ : JValue → List Char
  | .null => "null".data
  | .bool true => "true".data
  | .bool false => "false".data
  | .int n => renderInt n
  | .str s => renderString s
  | .arr [] => ['[', ']']
  | .arr (x :: xs) => '[' :: (renderItems (x :: xs) ++ [']'])
  | .obj [] => [lcurly, rcurly]
  | .obj (kv :: kvs) => lcurly :: (renderFields (kv :: kvs) ++ [rcurly])

/-- Array elements joined by `', '`. -/
def renderItems : List JValue → List Char
  | [] => []
  | [x] => renderJ x
  | x :: y :: tl => renderJ x ++ ',' :: ' ' :: renderItems (y :: tl)

/-- Object members `"key": value` joined by `', '`. -/
def renderFields : List (String × JValue) → List Char
  | [] => []
  | [(k, v)] => renderString k ++ ':' :: ' ' :: renderJ v
  | (k, v) :: kv :: tl =>
    renderString k ++ ':' :: ' ' :: renderJ v ++ ',' :: ' ' :: renderFields (kv :: tl)

end

mutual

/-- Parser fuel sufficient for a value (nesting plus element counts). -/
def fuelJ : JValue → Nat
  | .null => 1
  | .bool _ => 1
  | .int _ => 1
  | .str _ => 1
  | .arr xs => 1 + fuelItemsJ xs
  | .obj kvs => 1 + fuelFieldsJ kvs

/-- Fuel for the element loop of an array. -/
def fuelItemsJ : List JValue → Nat
  | [] => 1
  | x :: xs => 1 + max (fuelJ x) (fuelItemsJ xs)

/-- Fuel for the member loop of an object. -/
def fuelFieldsJ : List (String × JValue) → Nat
  | [] => 1
  | (_, v) :: kvs => 1 + max (fuelJ v) (fuelFieldsJ kvs)

end

/-- JSON whitespace accepted between tokens by `json.loads`. -/
def isJWS (c : Char) : Bool :=
  c = ' ' || c = '\t' || c = '\n' || c = '\r'

/-- Skip inter-token whitespace. -/
def skipWS (cs : List Char) : List Char :=
  cs.dropWhile isJWS

/-- Consume an expected literal character sequence. -/
def dropLit : List Char → List Char → Option (List Char)
  | [], cs => some cs
  | _ :: _, [] => none
  | p :: ps, c :: cs => if c = p then dropLit ps cs else none

/-- Value of a hexadecimal digit character. -/
def hexVal (c : Char) : Option Nat :=
  if '0' ≤ c ∧ c ≤ '9' then some (c.toNat - 48)
  else if 'a' ≤ c ∧ c ≤ 'f' then some (c.toNat - 87)
  else if 'A' ≤ c ∧ c ≤ 'F' then some (c.toNat - 55)
  else none

/-- JSON string body after the opening quote: plain characters and
escapes until the closing quote.  (`\uXXXX` is read as a single code
point; surrogate-pair recombination is not modelled — with
`ensure_ascii=False` the pipeline only ever emits `\u00xx` for control
characters.) -/
def parseStr : List Char → Option (List Char × List Char)
  | [] => none
  | c :: cs =>
    if c = '"' then some ([], cs)
    else if c = '\\' then
      match cs with
      | [] => none
      | e :: cs1 =>
        if e = '"' then (parseStr cs1).map (fun p => ('"' :: p.1, p.2))
        else if e = '\\' then (parseStr cs1).map (fun p => ('\\' :: p.1, p.2))
        else if e = '/' then (parseStr cs1).map (fun p => ('/' :: p.1, p.2))
        else if e = 'n' then (parseStr cs1).map (fun p => ('\n' :: p.1, p.2))
        else if e = 'r' then (parseStr cs1).map (fun p => ('\r' :: p.1, p.2))
        else if e = 't' then (parseStr cs1).map (fun p => ('\t' :: p.1, p.2))
        else if e = 'b' then (parseStr cs1).map (fun p => (Char.ofNat 8 :: p.1, p.2))
        else if e = 'f' then (parseStr cs1).map (fun p => (Char.ofNat 12 :: p.1, p.2))
        else if e = 'u' then
          match cs1 with
          | h1 :: h2 :: h3 :: h4 :: cs2 =>
            match hexVal h1, hexVal h2, hexVal h3, hexVal h4 with
            | some a, some b, some c2, some d =>
              (parseStr cs2).map
                (fun p => (Char.ofNat (((a * 16 + b) * 16 + c2) * 16 + d) :: p.1, p.2))
            | _, _, _, _ => none
          | _ => none
        else none
    else (parseStr cs).map (fun p => (c :: p.1, p.2))

/-- Greedy digit run at the head of the input, as a `Nat`. -/
def parseNat (cs : List Char) : Option (Nat × List Char) :=
  let ds := cs.takeWhile Char.isDigit
  if ds.isEmpty then none
  else some (digitsToNat ds, cs.dropWhile Char.isDigit)

mutual

/-- One JSON value (integer numerals only), fuel-indexed recursive
descent mirroring `json.loads` on the grammar the pipeline emits. -/
def parseValue : Nat → List Char → Option (JValue × List Char)
  | 0, _ => none
  | f + 1, cs =>
    match skipWS cs with
    | [] => none
    | c :: r =>
      if c = 'n' then (dropLit ['u', 'l', 'l'] r).map (fun r1 => (JValue.null, r1))
      else if c = 't' then (dropLit ['r', 'u', 'e'] r).map (fun r1 => (JValue.bool true, r1))
      else if c = 'f' then (dropLit ['a', 'l', 's', 'e'] r).map (fun r1 => (JValue.bool false, r1))
      else if c = '"' then
        match parseStr r with
        | some (s, r1) => some (JValue.str (String.mk s), r1)
        | none => none
      else if c = '-' then
        match parseNat r with
        | some (n, r1) => some (JValue.int (-(n : Int)), r1)
        | none => none
      else if c.isDigit then
        match parseNat (c :: r) with
        | some (n, r1) => some (JValue.int (n : Int), r1)
        | none => none
      else if c = '[' then
        match skipWS r with
        | [] => none
        | d :: r1 =>
          if d = ']' then some (JValue.arr [], r1)
          else
            match parseItems f (d :: r1) with
            | some (xs, r2) => some (JValue.arr xs, r2)
            | none => none
      else if c = lcurly then
        match skipWS r with
        | [] => none
        | d :: r1 =>
          if d = rcurly then some (JValue.obj [], r1)
          else
            match parseFields f (d :: r1) with
            | some (kvs, r2) => some (JValue.obj kvs, r2)
            | none => none
      else none

/-- `value (',' value)* ']'` — the element loop of an array. -/
def parseItems : Nat → List Char → Option (List JValue × List Char)
  | 0, _ => none
  | f + 1, cs =>
    match parseValue f cs with
    | none => none
    | some (v, r) =>
      match skipWS r with
      | [] => none
      | c :: r1 =>
        if c = ',' then
          match parseItems f r1 with
          | some (xs, r2) => some (v :: xs, r2)
          | none => none
        else if c = ']' then some ([v], r1)
        else none

/-- `string ':' value (',' member)* closing-brace` — the member loop. -/
def parseFields : Nat → List Char → Option (List (String × JValue) × List Char)
  | 0, _ => none
  | f + 1, cs =>
    match skipWS cs with
    | [] => none
    | c :: r =>
      if c = '"' then
        match parseStr r with
        | none => none
        | some (k, r1) =>
          match skipWS r1 with
          | [] => none
          | d :: r2 =>
            if d = ':' then
              match parseValue f r2 with
              | none => none
              | some (v, r3) =>
                match skipWS r3 with
                | [] => none
                | e :: r4 =>
                  if e = ',' then
                    match parseFields f r4 with
                    | some (kvs, r5) => some ((String.mk k, v) :: kvs, r5)
                    | none => none
                  else if e = rcurly then some ([(String.mk k, v)], r4)
                  else none
            else none
      else none

end

/-- `json.dumps(doc, ensure_ascii=False)` (step 9). -/
def json_dumps (v : JValue) : String := String.mk (renderJ v)

/-- One output line of step 9: `json.dumps(doc, ensure_ascii=False) + '\n'`. -/
def output_line (v : JValue) : String := String.mk (renderJ v ++ ['\n'])

/-- `json.loads` of one line: a single value with surrounding whitespace
allowed; the fuel `length + 1` dominates any value the input can hold. -/
def json_loads (s : String) : Option JValue :=
  match parseValue (s.data.length + 1) s.data with
  | some (v, rest) => if (skipWS rest).isEmpty then some v else none
  | none => none

/-- The continuation after a rendered numeral never starts with a digit
(in rendered JSON it is a separator, a closing bracket, or nothing). -/
def restOk : List Char → Bool
  | [] => true
  | c :: _ => !c.isDigit

/-- The enriched row consumed by `create_mongo_document` (step 8), with
all upstream derivations already applied.  The `Nat`-indexed accessors
model the `run_i` / `work_i` / `roxzone_i` columns (used for i in 1..8);
raw time strings are `String`s per the Row data model. -/
structure EnrichedRow where
  event_id : String
  event_name : String
  event_year : Option Int
  event_city : Option String
  is_championship : Bool
  gender : String
  nationality : String
  age_group : String
  division : String
  total_time : String
  total_time_seconds : Int
  work_time : String
  work_time_seconds : Int
  roxzone_time : String
  roxzone_time_seconds : Int
  run_time : String
  run_time_seconds : Int
  run_t : Nat → String
  run_s : Nat → Int
  work_t : Nat → String
  work_s : Nat → Int
  roxzone_t : Nat → String
  roxzone_s : Nat → Int
  is_valid : Bool

/-- One element of the `splits` array, for split number `i`. -/
def splitEntry (r : EnrichedRow) (i : Nat) : JValue :=
  .obj [("split_number", .int i),
        ("run_time", .str (r.run_t i)),
        ("run_seconds", .int (r.run_s i)),
        ("work_time", .str (r.work_t i)),
        ("work_seconds", .int (r.work_s i)),
        ("roxzone_time", .str (r.roxzone_t i)),
        ("roxzone_seconds", .int (r.roxzone_s i))]

/-- Step 8 `create_mongo_document(row)`: the nested document, keys in
source order; `event_year` null-coalesced, `event_city` passed through
(Python `None` becomes JSON null). -/
def create_mongo_document (r : EnrichedRow) : JValue :=
  .obj [("event", .obj
          [("event_id", .str r.event_id),
           ("event_name", .str r.event_name),
           ("event_year", match r.event_year with
                          | some y => .int y
                          | none => .null),
           ("event_city", match r.event_city with
                          | some c => .str c
                          | none => .null),
           ("is_championship", .bool r.is_championship)]),
        ("athlete", .obj
          [("gender", .str r.gender),
           ("nationality", .str r.nationality),
           ("age_group", .str r.age_group),
           ("division", .str r.division)]),
        ("performance", .obj
          [("total_time", .str r.total_time),
           ("total_seconds", .int r.total_time_seconds),
           ("work_time", .str r.work_time),
           ("work_seconds", .int r.work_time_seconds),
           ("roxzone_time", .str r.roxzone_time),
           ("roxzone_seconds", .int r.roxzone_time_seconds),
           ("run_time", .str r.run_time),
           ("run_seconds", .int r.run_time_seconds),
           ("is_valid", .bool r.is_valid)]),
        ("splits", .arr ((List.range' 1 8).map (splitEntry r)))]

/-- Association lookup among the members of a JSON object. -/
def jAssoc : List (String × JValue) → String → Option JValue
  | [], _ => none
  | (k, v) :: tl, key => if k = key then some v else jAssoc tl key

/-- Field access in a JSON object value. -/
def jGet : JValue → String → Option JValue
  | .obj kvs, key => jAssoc kvs key
  | _, _ => none

/- ================================================================
   Claim-side auxiliary definitions
   ================================================================ -/

/-- Decidable equality for the `extract_city` result type. -/
instance : DecidableEq (Except String (Option String)) := fun a b =>
  match a, b with
  | .ok x, .ok y =>
    if h : x = y then isTrue (by rw [h])
    else isFalse (fun e => h (Except.ok.inj e))
  | .error x, .error y =>
    if h : x = y then isTrue (by rw [h])
    else isFalse (fun e => h (Except.error.inj e))
  | .ok _, .error _ => isFalse (fun e => Except.noConfusion e)
  | .error _, .ok _ => isFalse (fun e => Except.noConfusion e)

/-- The year derivation as claim C7 words it (NOT the source's behaviour):
the first whole whitespace-delimited token consisting of exactly 4 digits,
null when there is no such token. -/
def claimEventYear (event_name : String) : Option Nat :=
  ((pySplitWS event_name).find? fun t => pyIsdigit t && t.length == 4).map
    fun t => digitsToNat t.data

/-- Four consecutive ASCII digits occur in `cs` starting at index `i`. -/
def digits4At (cs : List Char) (i : Nat) : Prop :=
  4 ≤ (cs.drop i).length ∧ ((cs.drop i).take 4).all Char.isDigit = true

instance (cs : List Char) (i : Nat) : Decidable (digits4At cs i) := by
  unfold digits4At; infer_instance



/- ================================================================
   Helper lemmas — time_to_seconds
   ================================================================ -/

theorem tts_split3 (s p0 p1 p2 : String) (h m sec : Int)
    (hsplit : pySplitColon s = [p0, p1, p2])
    (hp0 : pyInt p0 = some h) (hp1 : pyInt p1 = some m) (hp2 : pyInt p2 = some sec) :
    time_to_seconds (some s) = h * 3600 + m * 60 + sec := by
  by_cases hz : s = "0:00:00"
  · subst hz
    have e : pySplitColon "0:00:00" = ["0", "00", "00"] := by decide
    rw [e] at hsplit
    obtain ⟨h0, h1, h2⟩ : "0" = p0 ∧ "00" = p1 ∧ "00" = p2 := by
      simpa using hsplit
    subst h0; subst h1; subst h2
    have e0 : pyInt "0" = some 0 := by decide
    have e1 : pyInt "00" = some 0 := by decide
    rw [e0] at hp0; rw [e1] at hp1; rw [e1] at hp2
    obtain rfl : (0 : Int) = h := Option.some.inj hp0
    obtain rfl : (0 : Int) = m := Option.some.inj hp1
    obtain rfl : (0 : Int) = sec := Option.some.inj hp2
    norm_num
    decide
  · by_cases he : s = ""
    · subst he
      have e : pySplitColon "" = [""] := by decide
      rw [e] at hsplit
      simp at hsplit
    · have hcond : ¬(s = "" ∨ s = "0:00:00") := by tauto
      simp only [time_to_seconds, if_neg hcond, hsplit, hp0, hp1, hp2]

theorem tts_split2 (s p0 p1 : String) (m sec : Int)
    (hsplit : pySplitColon s = [p0, p1])
    (hp0 : pyInt p0 = some m) (hp1 : pyInt p1 = some sec) :
    time_to_seconds (some s) = m * 60 + sec := by
  have hz : s ≠ "0:00:00" := by
    intro h; subst h
    have e : pySplitColon "0:00:00" = ["0", "00", "00"] := by decide
    rw [e] at hsplit; simp at hsplit
  have he : s ≠ "" := by
    intro h; subst h
    have e : pySplitColon "" = [""] := by decide
    rw [e] at hsplit; simp at hsplit
  have hcond : ¬(s = "" ∨ s = "0:00:00") := by tauto
  simp only [time_to_seconds, if_neg hcond, hsplit, hp0, hp1]

theorem tts_other (s : String)
    (h2 : (pySplitColon s).length ≠ 2) (h3 : (pySplitColon s).length ≠ 3) :
    time_to_seconds (some s) = 0 := by
  by_cases hcond : s = "" ∨ s = "0:00:00"
  · simp only [time_to_seconds, if_pos hcond]
  · simp only [time_to_seconds, if_neg hcond]
    match hs : pySplitColon s with
    | [] => rfl
    | [_] => rfl
    | [_, _] => rw [hs] at h2; simp at h2
    | [_, _, _] => rw [hs] at h3; simp at h3
    | _ :: _ :: _ :: _ :: _ => rfl

theorem tts_bad3 (s p0 p1 p2 : String)
    (hsplit : pySplitColon s = [p0, p1, p2])
    (hbad : pyInt p0 = none ∨ pyInt p1 = none ∨ pyInt p2 = none) :
    time_to_seconds (some s) = 0 := by
  by_cases hcond : s = "" ∨ s = "0:00:00"
  · simp only [time_to_seconds, if_pos hcond]
  · simp only [time_to_seconds, if_neg hcond, hsplit]
    rcases hbad with hb | hb | hb <;>
      (rw [hb]; all_goals (cases pyInt p0 <;> cases pyInt p1 <;> cases pyInt p2 <;> rfl))

theorem tts_bad2 (s p0 p1 : String)
    (hsplit : pySplitColon s = [p0, p1])
    (hbad : pyInt p0 = none ∨ pyInt p1 = none) :
    time_to_seconds (some s) = 0 := by
  by_cases hcond : s = "" ∨ s = "0:00:00"
  · simp only [time_to_seconds, if_pos hcond]
  · simp only [time_to_seconds, if_neg hcond, hsplit]
    rcases hbad with hb | hb <;>
      (rw [hb]; all_goals (cases pyInt p0 <;> cases pyInt p1 <;> rfl))

/- ================================================================
   Claim theorems — C1, C2, C3, C9, C10
   ================================================================ -/

/-- C1: the claim says the `event_city` derivation is total and never lets
an exception propagate, including for championship-flagged names with no
` - ` separator, no non-final `Championships` token and no 4-digit token.
The code violates this: on such a name the local variable `city` is never
assigned and `return city` raises `UnboundLocalError`, modelled here as an
explicit `.error` result. -/
theorem c1_extract_city_raises :
    is_championship "Hyrox World Championship" = true ∧
    extract_city_row "Hyrox World Championship" = .error "UnboundLocalError" := by
  decide

/-- C2 counterexample: on `"2023 European Championship - Berlin"` the code
takes the text BEFORE the ` - ` separator and the last of its (at most 3)
whitespace tokens, which is `"Championship"`, not `"Berlin"` as claimed. -/
theorem c2_city_counterexample :
    (extract_city_row "2023 European Championship - Berlin"
      = .ok (some "Berlin")) = False :=
  eq_false (by decide)

/-- C2 amended: city extraction on `"2023 European Championship - Berlin"`
yields `"Championship"` (the last of at most 3 whitespace tokens of the text
before ` - `); on `"Hyrox Elite Championships Paris"` it yields `"Paris"`;
on the non-championship `"S6 2023 Munich"` it yields `"Munich"`. -/
theorem c2_city_examples_amended :
    extract_city_row "2023 European Championship - Berlin" = .ok (some "Championship") ∧
    extract_city_row "Hyrox Elite Championships Paris" = .ok (some "Paris") ∧
    extract_city_row "S6 2023 Munich" = .ok (some "Munich") := by
  decide

/-- C3: the duration parser is total with the claimed values: a colon
split with exactly 3 integer-parsable parts gives `h*3600+m*60+s`, exactly
2 parts gives `m*60+s`, and every other input (missing value, `""`,
`"0:00:00"`, other segment counts, unparsable parts) gives `0`; moreover
`time_to_seconds "1:02:03" = 3723`, `"45:10" = 2710`, `"not-a-time" = 0`. -/
theorem c3_time_to_seconds_total :
    (∀ s p0 p1 p2 h m sec, pySplitColon s = [p0, p1, p2] →
        pyInt p0 = some h → pyInt p1 = some m → pyInt p2 = some sec →
        time_to_seconds (some s) = h * 3600 + m * 60 + sec)
  ∧ (∀ s p0 p1 m sec, pySplitColon s = [p0, p1] →
        pyInt p0 = some m → pyInt p1 = some sec →
        time_to_seconds (some s) = m * 60 + sec)
  ∧ time_to_seconds none = 0
  ∧ time_to_seconds (some "") = 0
  ∧ time_to_seconds (some "0:00:00") = 0
  ∧ (∀ s, (pySplitColon s).length ≠ 2 → (pySplitColon s).length ≠ 3 →
        time_to_seconds (some s) = 0)
  ∧ (∀ s p0 p1 p2, pySplitColon s = [p0, p1, p2] →
        (pyInt p0 = none ∨ pyInt p1 = none ∨ pyInt p2 = none) →
        time_to_seconds (some s) = 0)
  ∧ (∀ s p0 p1, pySplitColon s = [p0, p1] →
        (pyInt p0 = none ∨ pyInt p1 = none) →
        time_to_seconds (some s) = 0)
  ∧ time_to_seconds (some "1:02:03") = 3723
  ∧ time_to_seconds (some "45:10") = 2710
  ∧ time_to_seconds (some "not-a-time") = 0 := by
  refine ⟨?_, ?_, rfl, by decide, by decide, ?_, ?_, ?_, by decide, by decide, by decide⟩
  · exact fun s p0 p1 p2 h m sec => tts_split3 s p0 p1 p2 h m sec
  · exact fun s p0 p1 m sec => tts_split2 s p0 p1 m sec
  · exact tts_other
  · exact tts_bad3
  · exact tts_bad2

/-- C3 witness: the general 3-part clause applied at `"1:02:03"`. -/
theorem c3_witness : time_to_seconds (some "1:02:03") = 1 * 3600 + 2 * 60 + 3 :=
  c3_time_to_seconds_total.1 "1:02:03" "1" "02" "03" 1 2 3
    (by decide) (by decide) (by decide) (by decide)

/-- C9: the duration parser performs no range or sign validation: any
integer-parsable pair/triple is combined into the weighted sum even with
components ≥ 60, and `"-1:30"` yields the negative value `-30`. -/
theorem c9_no_range_validation :
    (∀ s p0 p1 p2 h m sec, pySplitColon s = [p0, p1, p2] →
        pyInt p0 = some h → pyInt p1 = some m → pyInt p2 = some sec →
        time_to_seconds (some s) = h * 3600 + m * 60 + sec)
  ∧ (∀ s p0 p1 m sec, pySplitColon s = [p0, p1] →
        pyInt p0 = some m → pyInt p1 = some sec →
        time_to_seconds (some s) = m * 60 + sec)
  ∧ time_to_seconds (some "99:99") = 99 * 60 + 99
  ∧ time_to_seconds (some "1:75:90") = 1 * 3600 + 75 * 60 + 90
  ∧ time_to_seconds (some "-1:30") = -30
  ∧ time_to_seconds (some "-1:30") < 0 := by
  refine ⟨?_, ?_, by decide, by decide, by decide, by decide⟩
  · exact fun s p0 p1 p2 h m sec => tts_split3 s p0 p1 p2 h m sec
  · exact fun s p0 p1 m sec => tts_split2 s p0 p1 m sec

/-- C9 witness: the 2-part clause applied at `"99:99"` (minutes/seconds
well above 59 are accepted unchecked). -/
theorem c9_witness : time_to_seconds (some "99:99") = 99 * 60 + 99 :=
  c9_no_range_validation.2.1 "99:99" "99" "99" 99 99
    (by decide) (by decide) (by decide)

/-- C10: the explicit `time_str == '0:00:00'` special case is redundant:
dropping that disjunct leaves an extensionally equal parser, because
`"0:00:00"` splits into three numeric parts summing to 0. -/
theorem c10_zero_literal_redundant :
    ∀ t, time_to_seconds t = time_to_seconds_noZero t := by
  intro t
  match t with
  | none => rfl
  | some s =>
    by_cases hz : s = "0:00:00"
    · subst hz; decide
    · simp only [time_to_seconds, time_to_seconds_noZero, hz, or_false]

/-- C4: the completion check is true iff all 16 `run_i_seconds` and
`work_i_seconds` values (`i` in 1..8) are strictly positive, false as soon
as any is ≤ 0, and its result does not depend on any roxzone value. -/
theorem c4_check_valid_completion_spec :
    (∀ row : SecondsRow, check_valid_completion row = true ↔
        ∀ i, 1 ≤ i → i ≤ 8 → 0 < row.run_seconds i ∧ 0 < row.work_seconds i)
  ∧ (∀ (row : SecondsRow) (i : Nat), 1 ≤ i → i ≤ 8 →
        (row.run_seconds i ≤ 0 ∨ row.work_seconds i ≤ 0) →
        check_valid_completion row = false)
  ∧ (∀ r1 r2 : SecondsRow, r1.run_seconds = r2.run_seconds →
        r1.work_seconds = r2.work_seconds →
        check_valid_completion r1 = check_valid_completion r2) := by
  have key : ∀ row : SecondsRow, check_valid_completion row = true ↔
      ∀ i, 1 ≤ i → i ≤ 8 → 0 < row.run_seconds i ∧ 0 < row.work_seconds i := by
    intro row
    simp only [check_valid_completion, List.all_eq_true, List.mem_range'_1]
    constructor
    · intro hall i h1 h8
      have := hall i ⟨h1, by omega⟩
      simp only [Bool.not_eq_true', Bool.or_eq_false_iff, decide_eq_false_iff_not,
        not_le] at this
      exact this
    · intro hpt i hi
      have := hpt i hi.1 (by omega)
      simp only [Bool.not_eq_true', Bool.or_eq_false_iff, decide_eq_false_iff_not,
        not_le]
      exact this
  refine ⟨key, ?_, ?_⟩
  · intro row i h1 h8 hbad
    cases hc : check_valid_completion row with
    | false => rfl
    | true =>
      have := ((key row).mp hc) i h1 h8
      omega
  · intro r1 r2 hrun hwork
    simp only [check_valid_completion, hrun, hwork]

/-- C4 witness: the equivalence and the failure clause at concrete rows
(all-ones row is complete; zeroing `run_3_seconds` makes it incomplete). -/
theorem c4_witness :
    check_valid_completion ⟨fun _ => 1, fun _ => 1, fun _ => 1⟩ = true ∧
    check_valid_completion
      ⟨fun i => if i = 3 then 0 else 1, fun _ => 1, fun _ => 1⟩ = false := by
  constructor
  · exact (c4_check_valid_completion_spec.1 _).mpr (fun i _ _ => ⟨zero_lt_one, zero_lt_one⟩)
  · exact c4_check_valid_completion_spec.2.1 _ 3 (by omega) (by omega)
      (Or.inl (by simp))

/-- C8: field repair replaces `event_name` exactly when `event_id` is a
key of `event_corrections`, leaves the row untouched otherwise, and is
idempotent. -/
theorem c8_fix_event_name_spec :
    (∀ r nm, assocLookup event_corrections r.event_id = some nm →
        fix_event_name r = { r with event_name := nm })
  ∧ (∀ r, assocLookup event_corrections r.event_id = none →
        fix_event_name r = r)
  ∧ (∀ r, fix_event_name (fix_event_name r) = fix_event_name r) := by
  refine ⟨?_, ?_, ?_⟩
  · intro r nm h; simp only [fix_event_name, h]
  · intro r h; simp only [fix_event_name, h]
  · intro r
    cases h : assocLookup event_corrections r.event_id with
    | none => simp only [fix_event_name, h]
    | some nm => simp only [fix_event_name, h]

/-- C8 witness: repairing a known-bad row rewrites its name, and a second
repair changes nothing. -/
theorem c8_witness :
    fix_event_name ⟨"JGDMS4JI468", "K?ln"⟩ = ⟨"JGDMS4JI468", "S5 2023 Koln"⟩ ∧
    fix_event_name (fix_event_name ⟨"JGDMS4JI468", "K?ln"⟩) =
      fix_event_name ⟨"JGDMS4JI468", "K?ln"⟩ := by
  constructor
  · exact c8_fix_event_name_spec.1 ⟨"JGDMS4JI468", "K?ln"⟩ "S5 2023 Koln" (by decide)
  · exact c8_fix_event_name_spec.2.2 ⟨"JGDMS4JI468", "K?ln"⟩

/- ================================================================
   Helper lemmas — leftmost \d{4} scan
   ================================================================ -/

theorem digits4At_nil (i : Nat) : ¬ digits4At [] i := by
  simp [digits4At]

theorem digits4At_cons_succ (c : Char) (tl : List Char) (i : Nat) :
    digits4At (c :: tl) (i + 1) ↔ digits4At tl i := by
  simp [digits4At, List.drop_succ_cons]

theorem fda_some_iff (cs r : List Char) :
    fourDigitsAt cs = some r ↔ (digits4At cs 0 ∧ r = cs.take 4) := by
  match cs with
  | [] => simp [fourDigitsAt, digits4At]
  | [a] => simp [fourDigitsAt, digits4At]
  | [a, b] => simp [fourDigitsAt, digits4At]
  | [a, b, c] => simp [fourDigitsAt, digits4At]
  | a :: b :: c :: d :: tl =>
    simp only [fourDigitsAt, digits4At, List.drop_zero]
    constructor
    · intro h
      split_ifs at h with hd
      refine ⟨⟨by simp, ?_⟩, ?_⟩
      · simp only [List.take_succ_cons, List.take_zero, List.all_cons, List.all_nil]
        simp only [Bool.and_eq_true] at hd ⊢
        tauto
      · simp only [List.take_succ_cons, List.take_zero]
        exact (Option.some.inj h).symm
    · rintro ⟨⟨-, hall⟩, rfl⟩
      simp only [List.take_succ_cons, List.take_zero, List.all_cons, List.all_nil,
        Bool.and_eq_true, and_true] at hall
      rw [if_pos]
      · simp
      · simp only [Bool.and_eq_true]
        tauto

theorem fda_none_iff (cs : List Char) :
    fourDigitsAt cs = none ↔ ¬ digits4At cs 0 := by
  cases hf : fourDigitsAt cs with
  | some r =>
    obtain ⟨hd, -⟩ := (fda_some_iff cs r).mp hf
    simp [hd]
  | none =>
    simp only [true_iff]
    intro hd
    have : fourDigitsAt cs = some (cs.take 4) := (fda_some_iff cs _).mpr ⟨hd, rfl⟩
    rw [hf] at this
    cases this

theorem findFourDigits_some_iff (cs r : List Char) :
    findFourDigits cs = some r ↔
      ∃ i, digits4At cs i ∧ r = (cs.drop i).take 4 ∧
        ∀ j, j < i → ¬ digits4At cs j := by
  induction cs with
  | nil =>
    simp only [findFourDigits]
    constructor
    · intro h; cases h
    · rintro ⟨i, hi, -, -⟩; exact absurd hi (digits4At_nil i)
  | cons c tl ih =>
    cases hf : fourDigitsAt (c :: tl) with
    | some r0 =>
      obtain ⟨hd0, hr0⟩ := (fda_some_iff _ _).mp hf
      simp only [findFourDigits, hf]
      constructor
      · intro h
        obtain rfl : r0 = r := Option.some.inj h
        exact ⟨0, hd0, by simpa using hr0,
          fun j hj => absurd hj (Nat.not_lt_zero j)⟩
      · rintro ⟨i, hi, hr, hmin⟩
        have hi0 : i = 0 := by
          by_contra hne
          exact (hmin 0 (Nat.pos_of_ne_zero hne)) hd0
        subst hi0
        simp only [List.drop_zero] at hr
        rw [hr0, hr]
    | none =>
      have hd0 : ¬ digits4At (c :: tl) 0 := (fda_none_iff _).mp hf
      simp only [findFourDigits, hf]
      rw [ih]
      constructor
      · rintro ⟨i, hi, hr, hmin⟩
        refine ⟨i + 1, (digits4At_cons_succ c tl i).mpr hi, ?_, ?_⟩
        · simpa [List.drop_succ_cons] using hr
        · intro j hj
          cases j with
          | zero => exact hd0
          | succ j' =>
            rw [digits4At_cons_succ]
            exact hmin j' (by omega)
      · rintro ⟨i, hi, hr, hmin⟩
        cases i with
        | zero => exact absurd hi hd0
        | succ i' =>
          refine ⟨i', (digits4At_cons_succ c tl i').mp hi, ?_, ?_⟩
          · simpa [List.drop_succ_cons] using hr
          · intro j hj
            have := hmin (j + 1) (by omega)
            rwa [digits4At_cons_succ] at this

theorem findFourDigits_none_iff (cs : List Char) :
    findFourDigits cs = none ↔ ∀ i, ¬ digits4At cs i := by
  induction cs with
  | nil => simp [findFourDigits, digits4At_nil]
  | cons c tl ih =>
    cases hf : fourDigitsAt (c :: tl) with
    | some r0 =>
      have hd0 : digits4At (c :: tl) 0 := ((fda_some_iff _ _).mp hf).1
      simp only [findFourDigits, hf]
      constructor
      · intro h; cases h
      · intro h; exact absurd hd0 (h 0)
    | none =>
      have hd0 : ¬ digits4At (c :: tl) 0 := (fda_none_iff _).mp hf
      simp only [findFourDigits, hf]
      rw [ih]
      constructor
      · intro h i
        cases i with
        | zero => exact hd0
        | succ i' => rw [digits4At_cons_succ]; exact h i'
      · intro h i
        have := h (i + 1)
        rwa [digits4At_cons_succ] at this

/- ================================================================
   Claim theorems — C7
   ================================================================ -/

/-- C7 counterexample: in `"S6 12345 Munich"` no whole whitespace token is
exactly 4 digits, so the claim says `event_year` is null; but the code's
regex `(\d{4})` matches the first 4 consecutive digits inside `"12345"`,
yielding 1234. -/
theorem c7_year_counterexample :
    event_year "S6 12345 Munich" = some 1234 ∧
    claimEventYear "S6 12345 Munich" = none := by
  decide

/-- C7 amended: `event_year` equals the value of the LEFTMOST run of four
consecutive digits anywhere in `event_name` (not necessarily a whole
whitespace-delimited token), and is null exactly when the name contains no
four consecutive digits. -/
theorem c7_event_year_amended : ∀ s : String,
    (∀ y, event_year s = some y ↔
        ∃ i, digits4At s.data i ∧ y = digitsToNat ((s.data.drop i).take 4) ∧
          ∀ j, j < i → ¬ digits4At s.data j)
  ∧ (event_year s = none ↔ ∀ i, ¬ digits4At s.data i) := by
  intro s
  constructor
  · intro y
    simp only [event_year, Option.map_eq_some']
    constructor
    · rintro ⟨r, hr, rfl⟩
      obtain ⟨i, hi, rfl, hmin⟩ := (findFourDigits_some_iff _ _).mp hr
      exact ⟨i, hi, rfl, hmin⟩
    · rintro ⟨i, hi, rfl, hmin⟩
      exact ⟨_, (findFourDigits_some_iff _ _).mpr ⟨i, hi, rfl, hmin⟩, rfl⟩
  · simp only [event_year, Option.map_eq_none']
    exact findFourDigits_none_iff s.data

/-- C7 witness: the amended characterization instantiated at
`"S6 2023 Munich"`, where the leftmost digit run gives year 2023. -/
theorem c7_witness :
    ∃ i, digits4At ("S6 2023 Munich").data i ∧
      2023 = digitsToNat ((("S6 2023 Munich").data.drop i).take 4) ∧
      ∀ j, j < i → ¬ digits4At ("S6 2023 Munich").data j :=
  ((c7_event_year_amended "S6 2023 Munich").1 2023).mp (by decide)

/- ================================================================
   Helper lemmas — JSON round trip: characters and numerals
   ================================================================ -/

theorem char_eq_of_toNat_eq {c d : Char} (h : c.toNat = d.toNat) : c = d :=
  Char.ext (UInt32.ext h)

theorem string_mk_data : ∀ s : String, String.mk s.data = s
  | ⟨_⟩ => rfl

theorem skipWS_cons (c : Char) (cs : List Char) :
    skipWS (c :: cs) = if isJWS c = true then skipWS cs else c :: cs := by
  simp [skipWS, List.dropWhile_cons]

theorem ndigits_eq_small {n : Nat} (h : n < 10) :
    ndigits n = [Char.ofNat (48 + n)] := by
  unfold ndigits
  rw [dif_pos h]

theorem ndigits_eq_large {n : Nat} (h : ¬ n < 10) :
    ndigits n = ndigits (n / 10) ++ [Char.ofNat (48 + n % 10)] := by
  conv_lhs => unfold ndigits
  rw [dif_neg h]

theorem digit_char_isDigit : ∀ d, d < 10 → (Char.ofNat (48 + d)).isDigit = true := by
  decide

theorem digit_char_toNat : ∀ d, d < 10 → (Char.ofNat (48 + d)).toNat = 48 + d := by
  decide

theorem ndigits_all_digit (n : Nat) : (ndigits n).all Char.isDigit = true := by
  induction n using Nat.strong_induction_on with
  | _ n ih =>
    by_cases h : n < 10
    · rw [ndigits_eq_small h]
      simp [digit_char_isDigit n h]
    · rw [ndigits_eq_large h, List.all_append]
      simp [ih (n / 10) (Nat.div_lt_self (by omega) (by omega)),
        digit_char_isDigit (n % 10) (Nat.mod_lt n (by omega))]

theorem ndigits_ne_nil (n : Nat) : ndigits n ≠ [] := by
  by_cases h : n < 10
  · rw [ndigits_eq_small h]; simp
  · rw [ndigits_eq_large h]; simp

theorem ndigits_head (n : Nat) : ∃ c tl, ndigits n = c :: tl ∧ c.isDigit = true := by
  cases hd : ndigits n with
  | nil => exact absurd hd (ndigits_ne_nil n)
  | cons c tl =>
    refine ⟨c, tl, rfl, ?_⟩
    have hall := ndigits_all_digit n
    rw [hd] at hall
    simp only [List.all_cons, Bool.and_eq_true] at hall
    exact hall.1

theorem digitsToNat_ndigits_aux (n : Nat) : ∀ a : Nat,
    (ndigits n).foldl (fun x c => x * 10 + (c.toNat - 48)) a
      = a * 10 ^ (ndigits n).length + n := by
  induction n using Nat.strong_induction_on with
  | _ n ih =>
    intro a
    by_cases h : n < 10
    · rw [ndigits_eq_small h]
      simp only [List.foldl_cons, List.foldl_nil, List.length_cons, List.length_nil,
        digit_char_toNat n h]
      have : 48 + n - 48 = n := by omega
      rw [this, pow_one]
    · rw [ndigits_eq_large h, List.foldl_append]
      simp only [List.foldl_cons, List.foldl_nil, List.length_append, List.length_cons,
        List.length_nil, digit_char_toNat (n % 10) (Nat.mod_lt n (by omega))]
      rw [ih (n / 10) (Nat.div_lt_self (by omega) (by omega)) a]
      have hmod : n / 10 * 10 + n % 10 = n := by omega
      have hsub : 48 + n % 10 - 48 = n % 10 := by omega
      rw [hsub]
      calc (a * 10 ^ (ndigits (n / 10)).length + n / 10) * 10 + n % 10
          = a * (10 ^ (ndigits (n / 10)).length * 10) + (n / 10 * 10 + n % 10) := by ring
        _ = a * 10 ^ ((ndigits (n / 10)).length + (0 + 1)) + n := by
            rw [hmod, Nat.zero_add, pow_succ]

theorem digitsToNat_ndigits (n : Nat) : digitsToNat (ndigits n) = n := by
  have := digitsToNat_ndigits_aux n 0
  simpa [digitsToNat] using this

theorem takeWhile_append_all {p : Char → Bool} :
    ∀ (xs ys : List Char), xs.all p = true → ys.takeWhile p = [] →
      (xs ++ ys).takeWhile p = xs ∧ (xs ++ ys).dropWhile p = ys := by
  intro xs
  induction xs with
  | nil =>
    intro ys _ hy
    refine ⟨by simpa using hy, ?_⟩
    cases ys with
    | nil => rfl
    | cons c tl =>
      simp only [List.takeWhile_cons] at hy
      by_cases hp : p c = true
      · rw [if_pos hp] at hy; cases hy
      · simp only [List.nil_append, List.dropWhile_cons,
          Bool.not_eq_true] at hp ⊢
        rw [if_neg (by simp [hp])]
  | cons x xt ih =>
    intro ys hall hy
    simp only [List.all_cons, Bool.and_eq_true] at hall
    obtain ⟨hx, hxt⟩ := hall
    obtain ⟨ht, hd⟩ := ih ys hxt hy
    constructor
    · simp only [List.cons_append, List.takeWhile_cons, if_pos hx, ht]
    · simp only [List.cons_append, List.dropWhile_cons, if_pos hx, hd]

theorem restOk_takeWhile {rest : List Char} (hr : restOk rest = true) :
    rest.takeWhile Char.isDigit = [] := by
  cases rest with
  | nil => rfl
  | cons c tl =>
    simp only [restOk, Bool.not_eq_true'] at hr
    simp [List.takeWhile_cons, hr]

theorem parseNat_ndigits (n : Nat) (rest : List Char) (hr : restOk rest = true) :
    parseNat (ndigits n ++ rest) = some (n, rest) := by
  obtain ⟨ht, hd⟩ :=
    takeWhile_append_all (ndigits n) rest (ndigits_all_digit n) (restOk_takeWhile hr)
  simp only [parseNat, ht, hd]
  rw [if_neg (by simp [ndigits_ne_nil n]), digitsToNat_ndigits]

/- ================================================================
   Helper lemmas — JSON round trip: string escapes
   ================================================================ -/

theorem hexVal_hexDigitChar : ∀ k, k < 16 → hexVal (hexDigitChar k) = some k := by
  decide

theorem char_ofNat_toNat_small : ∀ m, m < 32 → (Char.ofNat m).toNat = m := by
  decide

theorem parseStr_escList : ∀ (s rest : List Char),
    parseStr (escList s ++ ('"' :: rest)) = some (s, rest) := by
  intro s
  induction s with
  | nil =>
    intro rest
    simp only [escList, List.nil_append]
    rw [parseStr.eq_def]
    simp
  | cons c tl ih =>
    intro rest
    simp only [escList, List.append_assoc]
    unfold escChar
    split_ifs with h1 h2 h3 h4 h5 h6 h7 h8
    · subst h1
      rw [List.cons_append, List.cons_append, List.nil_append, parseStr.eq_def]
      simp [ih rest]
    · subst h2
      rw [List.cons_append, List.cons_append, List.nil_append, parseStr.eq_def]
      simp [ih rest]
    · subst h3
      rw [List.cons_append, List.cons_append, List.nil_append, parseStr.eq_def]
      simp [ih rest]
    · subst h4
      rw [List.cons_append, List.cons_append, List.nil_append, parseStr.eq_def]
      simp [ih rest]
    · subst h5
      rw [List.cons_append, List.cons_append, List.nil_append, parseStr.eq_def]
      simp [ih rest]
    · have hc : c = Char.ofNat 8 := char_eq_of_toNat_eq (by rw [h6]; decide)
      subst hc
      rw [List.cons_append, List.cons_append, List.nil_append, parseStr.eq_def]
      simp [ih rest]
    · have hc : c = Char.ofNat 12 := char_eq_of_toNat_eq (by rw [h7]; decide)
      subst hc
      rw [List.cons_append, List.cons_append, List.nil_append, parseStr.eq_def]
      simp [ih rest]
    · have hhi : c.toNat / 16 < 16 := by omega
      have hlo : c.toNat % 16 < 16 := by omega
      simp only [List.cons_append, List.nil_append]
      rw [parseStr.eq_def]
      simp [show hexVal '0' = some 0 from by decide, hexVal_hexDigitChar _ hhi,
        hexVal_hexDigitChar _ hlo, ih rest]
      apply char_eq_of_toNat_eq
      rw [char_ofNat_toNat_small _ (by omega)]
      omega
    · rw [List.cons_append, List.nil_append, parseStr.eq_def]
      simp [h1, h2, ih rest]

/- ================================================================
   Helper lemmas — JSON round trip: value dispatch
   ================================================================ -/

theorem digit_not_special {c : Char} (h : c.isDigit = true) :
    isJWS c = false ∧ c ≠ 'n' ∧ c ≠ 't' ∧ c ≠ 'f' ∧ c ≠ '"' ∧ c ≠ '-' ∧
      c ≠ '[' ∧ c ≠ lcurly ∧ c ≠ ']' ∧ c ≠ rcurly := by
  have hws : isJWS c = false := by
    cases hw : isJWS c
    · rfl
    · exfalso
      simp only [isJWS, Bool.or_eq_true, decide_eq_true_eq] at hw
      rcases hw with ((rfl | rfl) | rfl) | rfl <;> exact absurd h (by decide)
  refine ⟨hws, ?_, ?_, ?_, ?_, ?_, ?_, ?_, ?_, ?_⟩ <;>
    (rintro rfl; exact absurd h (by decide))

theorem renderJ_null : renderJ .null = ['n', 'u', 'l', 'l'] := by
  simp [renderJ]

theorem renderJ_true : renderJ (.bool true) = ['t', 'r', 'u', 'e'] := by
  simp [renderJ]

theorem renderJ_false : renderJ (.bool false) = ['f', 'a', 'l', 's', 'e'] := by
  simp [renderJ]

theorem renderJ_int (n : Int) : renderJ (.int n) = renderInt n := by
  simp [renderJ]

theorem renderJ_str (s : String) : renderJ (.str s) = renderString s := by
  simp [renderJ]

theorem parseValue_cons_minus (f : Nat) (r : List Char) :
    parseValue (f + 1) ('-' :: r) =
      (match parseNat r with
       | some (n, r1) => some (JValue.int (-(n : Int)), r1)
       | none => none) := rfl

theorem parseValue_cons_quote (f : Nat) (r : List Char) :
    parseValue (f + 1) ('"' :: r) =
      (match parseStr r with
       | some (s, r1) => some (JValue.str (String.mk s), r1)
       | none => none) := rfl

theorem parseValue_cons_lbracket (f : Nat) (r : List Char) :
    parseValue (f + 1) ('[' :: r) =
      (match skipWS r with
       | [] => none
       | d :: r1 =>
         if d = ']' then some (JValue.arr [], r1)
         else
           match parseItems f (d :: r1) with
           | some (xs, r2) => some (JValue.arr xs, r2)
           | none => none) := rfl

theorem parseValue_cons_lcurly (f : Nat) (r : List Char) :
    parseValue (f + 1) (lcurly :: r) =
      (match skipWS r with
       | [] => none
       | d :: r1 =>
         if d = rcurly then some (JValue.obj [], r1)
         else
           match parseFields f (d :: r1) with
           | some (kvs, r2) => some (JValue.obj kvs, r2)
           | none => none) := rfl

theorem parseValue_succ_eq (f : Nat) (cs : List Char) :
    parseValue (f + 1) cs =
      (match skipWS cs with
       | [] => none
       | c :: r =>
         if c = 'n' then (dropLit ['u', 'l', 'l'] r).map (fun r1 => (JValue.null, r1))
         else if c = 't' then (dropLit ['r', 'u', 'e'] r).map (fun r1 => (JValue.bool true, r1))
         else if c = 'f' then (dropLit ['a', 'l', 's', 'e'] r).map (fun r1 => (JValue.bool false, r1))
         else if c = '"' then
           match parseStr r with
           | some (s, r1) => some (JValue.str (String.mk s), r1)
           | none => none
         else if c = '-' then
           match parseNat r with
           | some (n, r1) => some (JValue.int (-(n : Int)), r1)
           | none => none
         else if c.isDigit then
           match parseNat (c :: r) with
           | some (n, r1) => some (JValue.int (n : Int), r1)
           | none => none
         else if c = '[' then
           match skipWS r with
           | [] => none
           | d :: r1 =>
             if d = ']' then some (JValue.arr [], r1)
             else
               match parseItems f (d :: r1) with
               | some (xs, r2) => some (JValue.arr xs, r2)
               | none => none
         else if c = lcurly then
           match skipWS r with
           | [] => none
           | d :: r1 =>
             if d = rcurly then some (JValue.obj [], r1)
             else
               match parseFields f (d :: r1) with
               | some (kvs, r2) => some (JValue.obj kvs, r2)
               | none => none
         else none) := rfl

theorem parseValue_cons_digit (f : Nat) (c : Char) (r : List Char) (h : c.isDigit = true) :
    parseValue (f + 1) (c :: r) =
      (match parseNat (c :: r) with
       | some (n, r1) => some (JValue.int (n : Int), r1)
       | none => none) := by
  obtain ⟨hws, hn, ht, hf2, hq, hm, _, _, _, _⟩ := digit_not_special h
  simp only [parseValue_succ_eq, skipWS_cons, hws, hn, ht, hf2, hq, hm, h,
    Bool.false_eq_true, if_false, if_true, ite_false, ite_true]

theorem parseValue_null (f : Nat) (rest : List Char) :
    parseValue (f + 1) (renderJ .null ++ rest) = some (.null, rest) := by
  rw [renderJ_null]
  rfl

theorem parseValue_bool (b : Bool) (f : Nat) (rest : List Char) :
    parseValue (f + 1) (renderJ (.bool b) ++ rest) = some (.bool b, rest) := by
  cases b
  · rw [renderJ_false]; rfl
  · rw [renderJ_true]; rfl

theorem parseValue_str (s : String) (f : Nat) (rest : List Char) :
    parseValue (f + 1) (renderJ (.str s) ++ rest) = some (.str s, rest) := by
  rw [renderJ_str]
  unfold renderString
  rw [List.cons_append, List.append_assoc, List.cons_append, List.nil_append,
    parseValue_cons_quote, parseStr_escList]

theorem parseValue_int (n : Int) (f : Nat) (rest : List Char) (hr : restOk rest = true) :
    parseValue (f + 1) (renderJ (.int n) ++ rest) = some (.int n, rest) := by
  rw [renderJ_int]
  unfold renderInt
  by_cases hn : n < 0
  · rw [if_pos hn, List.cons_append, parseValue_cons_minus, parseNat_ndigits _ _ hr]
    show some (JValue.int (-(n.natAbs : Int)), rest) = some (JValue.int n, rest)
    have he : -(n.natAbs : Int) = n := by omega
    rw [he]
  · rw [if_neg hn]
    obtain ⟨c, tl, hctl, hcd⟩ := ndigits_head n.toNat
    rw [hctl, List.cons_append, parseValue_cons_digit f c _ hcd, ← List.cons_append,
      ← hctl, parseNat_ndigits _ _ hr]
    show some (JValue.int ((n.toNat : Nat) : Int), rest) = some (JValue.int n, rest)
    have he : ((n.toNat : Nat) : Int) = n := by omega
    rw [he]

theorem parseItems_succ_eq (f : Nat) (cs : List Char) :
    parseItems (f + 1) cs =
      (match parseValue f cs with
       | none => none
       | some (v, r) =>
         match skipWS r with
         | [] => none
         | c :: r1 =>
           if c = ',' then
             match parseItems f r1 with
             | some (xs, r2) => some (v :: xs, r2)
             | none => none
           else if c = ']' then some ([v], r1)
           else none) := rfl

theorem parseFields_succ_eq (f : Nat) (cs : List Char) :
    parseFields (f + 1) cs =
      (match skipWS cs with
       | [] => none
       | c :: r =>
         if c = '"' then
           match parseStr r with
           | none => none
           | some (k, r1) =>
             match skipWS r1 with
             | [] => none
             | d :: r2 =>
               if d = ':' then
                 match parseValue f r2 with
                 | none => none
                 | some (v, r3) =>
                   match skipWS r3 with
                   | [] => none
                   | e :: r4 =>
                     if e = ',' then
                       match parseFields f r4 with
                       | some (kvs, r5) => some ((String.mk k, v) :: kvs, r5)
                       | none => none
                     else if e = rcurly then some ([(String.mk k, v)], r4)
                     else none
               else none
         else none) := rfl

theorem parseValue_skip_space (f : Nat) (cs : List Char) :
    parseValue f (' ' :: cs) = parseValue f cs := by
  cases f with
  | zero => rfl
  | succ f =>
    rw [parseValue_succ_eq, parseValue_succ_eq, skipWS_cons]
    simp [isJWS]

theorem parseItems_skip_space (f : Nat) (cs : List Char) :
    parseItems f (' ' :: cs) = parseItems f cs := by
  cases f with
  | zero => rfl
  | succ f =>
    rw [parseItems_succ_eq, parseItems_succ_eq, parseValue_skip_space]

theorem parseFields_skip_space (f : Nat) (cs : List Char) :
    parseFields f (' ' :: cs) = parseFields f cs := by
  cases f with
  | zero => rfl
  | succ f =>
    rw [parseFields_succ_eq, parseFields_succ_eq, skipWS_cons]
    simp [isJWS]

theorem renderJ_arr_nil : renderJ (.arr []) = ['[', ']'] := by
  simp [renderJ]

theorem renderJ_arr_cons (x : JValue) (xs : List JValue) :
    renderJ (.arr (x :: xs)) = '[' :: (renderItems (x :: xs) ++ [']']) := by
  simp [renderJ]

theorem renderJ_obj_nil : renderJ (.obj []) = [lcurly, rcurly] := by
  simp [renderJ]

theorem renderJ_obj_cons (kv : String × JValue) (kvs : List (String × JValue)) :
    renderJ (.obj (kv :: kvs)) = lcurly :: (renderFields (kv :: kvs) ++ [rcurly]) := by
  simp [renderJ]

theorem renderItems_single (x : JValue) : renderItems [x] = renderJ x := by
  simp [renderItems]

theorem renderItems_cons2 (x y : JValue) (tl : List JValue) :
    renderItems (x :: y :: tl) = renderJ x ++ ',' :: ' ' :: renderItems (y :: tl) := by
  simp [renderItems]

theorem renderFields_single (k : String) (v : JValue) :
    renderFields [(k, v)] = renderString k ++ ':' :: ' ' :: renderJ v := by
  simp [renderFields]

theorem renderFields_cons2 (k : String) (v : JValue) (kv : String × JValue)
    (tl : List (String × JValue)) :
    renderFields ((k, v) :: kv :: tl) =
      renderString k ++ ':' :: ' ' :: renderJ v ++ ',' :: ' ' :: renderFields (kv :: tl) := by
  simp [renderFields]

theorem renderJ_shape (v : JValue) :
    ∃ c tl, renderJ v = c :: tl ∧ isJWS c = false ∧ c ≠ ']' ∧ c ≠ rcurly := by
  cases v with
  | null => exact ⟨'n', _, renderJ_null, by decide, by decide, by decide⟩
  | bool b =>
    cases b with
    | false => exact ⟨'f', _, renderJ_false, by decide, by decide, by decide⟩
    | true => exact ⟨'t', _, renderJ_true, by decide, by decide, by decide⟩
  | int n =>
    by_cases hn : n < 0
    · exact ⟨'-', _, by rw [renderJ_int]; unfold renderInt; rw [if_pos hn],
        by decide, by decide, by decide⟩
    · obtain ⟨c, tl, hctl, hcd⟩ := ndigits_head n.toNat
      obtain ⟨hws, _, _, _, _, _, _, _, hrb, hrc⟩ := digit_not_special hcd
      exact ⟨c, tl, by rw [renderJ_int]; unfold renderInt; rw [if_neg hn, hctl],
        hws, hrb, hrc⟩
  | str s =>
    exact ⟨'"', _, by rw [renderJ_str]; rfl, by decide, by decide, by decide⟩
  | arr xs =>
    cases xs with
    | nil => exact ⟨'[', _, renderJ_arr_nil, by decide, by decide, by decide⟩
    | cons x xt => exact ⟨'[', _, renderJ_arr_cons x xt, by decide, by decide, by decide⟩
  | obj kvs =>
    cases kvs with
    | nil => exact ⟨lcurly, _, renderJ_obj_nil, by decide, by decide, by decide⟩
    | cons kv kvt =>
      exact ⟨lcurly, _, renderJ_obj_cons kv kvt, by decide, by decide, by decide⟩

theorem isJWS_quote : isJWS '"' = false := by decide

theorem isJWS_comma : isJWS ',' = false := by decide

theorem isJWS_colon : isJWS ':' = false := by decide

theorem isJWS_rbracket : isJWS ']' = false := by decide

theorem isJWS_rcurly : isJWS rcurly = false := by decide

theorem rcurly_ne_comma : rcurly ≠ ',' := by decide

theorem rbracket_ne_comma : (']' : Char) ≠ ',' := by decide

theorem fuelJ_arr (xs : List JValue) : fuelJ (.arr xs) = 1 + fuelItemsJ xs := by
  simp [fuelJ]

theorem fuelJ_obj (kvs : List (String × JValue)) :
    fuelJ (.obj kvs) = 1 + fuelFieldsJ kvs := by
  simp [fuelJ]

theorem fuelItemsJ_cons (x : JValue) (xs : List JValue) :
    fuelItemsJ (x :: xs) = 1 + max (fuelJ x) (fuelItemsJ xs) := by
  simp [fuelItemsJ]

theorem fuelFieldsJ_cons (k : String) (v : JValue) (kvs : List (String × JValue)) :
    fuelFieldsJ ((k, v) :: kvs) = 1 + max (fuelJ v) (fuelFieldsJ kvs) := by
  simp [fuelFieldsJ]

theorem fuelJ_pos (v : JValue) : 1 ≤ fuelJ v := by
  cases v <;> simp [fuelJ]

theorem fuelItemsJ_pos (xs : List JValue) : 1 ≤ fuelItemsJ xs := by
  cases xs <;> simp [fuelItemsJ]

theorem fuelFieldsJ_pos (kvs : List (String × JValue)) : 1 ≤ fuelFieldsJ kvs := by
  cases kvs with
  | nil => simp [fuelFieldsJ]
  | cons kv tl => cases kv; simp [fuelFieldsJ]

theorem parseFields_step (f : Nat) (k : String) (Z : List Char) :
    parseFields (f + 1) (renderString k ++ (':' :: (' ' :: Z))) =
      (match parseValue f Z with
       | none => none
       | some (v, r3) =>
         match skipWS r3 with
         | [] => none
         | e :: r4 =>
           if e = ',' then
             match parseFields f r4 with
             | some (kvs, r5) => some ((k, v) :: kvs, r5)
             | none => none
           else if e = rcurly then some ([(k, v)], r4)
           else none) := by
  have hX : renderString k ++ (':' :: (' ' :: Z))
      = '"' :: (escList k.data ++ ('"' :: (':' :: (' ' :: Z)))) := by
    unfold renderString
    simp [List.append_assoc]
  rw [hX, parseFields_succ_eq, skipWS_cons]
  simp only [isJWS_quote, Bool.false_eq_true, if_false, eq_self_iff_true, if_true]
  rw [parseStr_escList]
  simp only [skipWS_cons, isJWS_colon, Bool.false_eq_true, if_false,
    eq_self_iff_true, if_true]
  rw [parseValue_skip_space]

mutual

theorem parse_renderJ : (v : JValue) → ∀ (f : Nat) (rest : List Char),
    fuelJ v ≤ f → restOk rest = true →
    parseValue f (renderJ v ++ rest) = some (v, rest)
  | .null => by
    intro f rest hf _hr
    cases f with
    | zero => exfalso; have := fuelJ_pos .null; omega
    | succ f => exact parseValue_null f rest
  | .bool b => by
    intro f rest hf _hr
    cases f with
    | zero => exfalso; have := fuelJ_pos (.bool b); omega
    | succ f => exact parseValue_bool b f rest
  | .int n => by
    intro f rest hf hr
    cases f with
    | zero => exfalso; have := fuelJ_pos (.int n); omega
    | succ f => exact parseValue_int n f rest hr
  | .str s => by
    intro f rest hf _hr
    cases f with
    | zero => exfalso; have := fuelJ_pos (.str s); omega
    | succ f => exact parseValue_str s f rest
  | .arr [] => by
    intro f rest hf _hr
    cases f with
    | zero => exfalso; have := fuelJ_pos (.arr []); omega
    | succ f => rw [renderJ_arr_nil]; rfl
  | .arr (x :: xs) => by
    intro f rest hf _hr
    cases f with
    | zero => exfalso; have := fuelJ_pos (.arr (x :: xs)); omega
    | succ f =>
      have hfi : fuelItemsJ (x :: xs) ≤ f := by
        have h1 := fuelJ_arr (x :: xs)
        omega
      obtain ⟨c0, tl0, h0, hws0, hrb0, hrc0⟩ := renderJ_shape x
      obtain ⟨tail, htail⟩ : ∃ tail, renderItems (x :: xs) = renderJ x ++ tail := by
        cases xs with
        | nil => exact ⟨[], by rw [renderItems_single, List.append_nil]⟩
        | cons y tl => exact ⟨_, renderItems_cons2 x y tl⟩
      have hcons : renderItems (x :: xs) ++ (']' :: rest) =
          c0 :: (tl0 ++ (tail ++ (']' :: rest))) := by
        rw [htail, h0]
        simp [List.append_assoc]
      rw [renderJ_arr_cons, List.cons_append, List.append_assoc, List.cons_append,
        List.nil_append, parseValue_cons_lbracket, hcons, skipWS_cons]
      simp only [hws0, Bool.false_eq_true, if_false, hrb0]
      rw [← hcons, parse_renderItems (x :: xs) f rest (by simp) hfi]
  | .obj [] => by
    intro f rest hf _hr
    cases f with
    | zero => exfalso; have := fuelJ_pos (.obj []); omega
    | succ f => rw [renderJ_obj_nil]; rfl
  | .obj (kv :: kvs) => by
    intro f rest hf _hr
    cases f with
    | zero => exfalso; have := fuelJ_pos (.obj (kv :: kvs)); omega
    | succ f =>
      have hfl : fuelFieldsJ (kv :: kvs) ≤ f := by
        have h1 := fuelJ_obj (kv :: kvs)
        omega
      obtain ⟨tail, htail⟩ :
          ∃ tail, renderFields (kv :: kvs) = renderString kv.1 ++ (':' :: ' ' :: tail) := by
        obtain ⟨k, v⟩ := kv
        cases kvs with
        | nil => exact ⟨renderJ v, by rw [renderFields_single]⟩
        | cons kv2 tl =>
          exact ⟨renderJ v ++ ',' :: ' ' :: renderFields (kv2 :: tl), by
            rw [renderFields_cons2]
            simp [List.append_assoc]⟩
      have hcons : renderFields (kv :: kvs) ++ (rcurly :: rest) =
          '"' :: ((escList kv.1.data ++ ['"']) ++ ((':' :: ' ' :: tail) ++ (rcurly :: rest))) := by
        rw [htail]
        unfold renderString
        simp [List.append_assoc]
      rw [renderJ_obj_cons, List.cons_append, List.append_assoc, List.cons_append,
        List.nil_append, parseValue_cons_lcurly, hcons, skipWS_cons]
      simp only [isJWS_quote, Bool.false_eq_true, if_false,
        show ('"' : Char) ≠ rcurly from by decide]
      rw [← hcons, parse_renderFields (kv :: kvs) f rest (by simp) hfl]

theorem parse_renderItems : (xs : List JValue) → ∀ (f : Nat) (rest : List Char),
    xs ≠ [] → fuelItemsJ xs ≤ f →
    parseItems f (renderItems xs ++ (']' :: rest)) = some (xs, rest)
  | [] => by intro f rest hne _; exact absurd rfl hne
  | [x] => by
    intro f rest _hne hfi
    cases f with
    | zero => exfalso; have := fuelItemsJ_pos [x]; omega
    | succ f =>
      have hfx : fuelJ x ≤ f := by
        have h1 := fuelItemsJ_cons x []
        omega
      rw [renderItems_single, parseItems_succ_eq,
        parse_renderJ x f (']' :: rest) hfx rfl]
      simp only [skipWS_cons, isJWS_rbracket, Bool.false_eq_true, if_false,
        rbracket_ne_comma, eq_self_iff_true, if_true]
  | x :: y :: tl => by
    intro f rest _hne hfi
    cases f with
    | zero => exfalso; have := fuelItemsJ_pos (x :: y :: tl); omega
    | succ f =>
      have hfx : fuelJ x ≤ f ∧ fuelItemsJ (y :: tl) ≤ f := by
        have h1 := fuelItemsJ_cons x (y :: tl)
        omega
      rw [renderItems_cons2, List.append_assoc, List.cons_append, List.cons_append,
        parseItems_succ_eq,
        parse_renderJ x f (',' :: ' ' :: (renderItems (y :: tl) ++ (']' :: rest))) hfx.1 rfl]
      simp only [skipWS_cons, isJWS_comma, Bool.false_eq_true, if_false,
        eq_self_iff_true, if_true]
      rw [parseItems_skip_space, parse_renderItems (y :: tl) f rest (by simp) hfx.2]

theorem parse_renderFields :
    (kvs : List (String × JValue)) → ∀ (f : Nat) (rest : List Char),
    kvs ≠ [] → fuelFieldsJ kvs ≤ f →
    parseFields f (renderFields kvs ++ (rcurly :: rest)) = some (kvs, rest)
  | [] => by intro f rest hne _; exact absurd rfl hne
  | [(k, v)] => by
    intro f rest _hne hfl
    cases f with
    | zero => exfalso; have := fuelFieldsJ_pos [(k, v)]; omega
    | succ f =>
      have hfv : fuelJ v ≤ f := by
        have h1 := fuelFieldsJ_cons k v []
        omega
      rw [renderFields_single, List.append_assoc, List.cons_append, List.cons_append,
        parseFields_step f k (renderJ v ++ (rcurly :: rest)),
        parse_renderJ v f (rcurly :: rest) hfv rfl]
      simp only [skipWS_cons, isJWS_rcurly, Bool.false_eq_true, if_false,
        rcurly_ne_comma, eq_self_iff_true, if_true]
  | (k, v) :: kv2 :: tl => by
    intro f rest _hne hfl
    cases f with
    | zero => exfalso; have := fuelFieldsJ_pos ((k, v) :: kv2 :: tl); omega
    | succ f =>
      have hfv : fuelJ v ≤ f ∧ fuelFieldsJ (kv2 :: tl) ≤ f := by
        have h1 := fuelFieldsJ_cons k v (kv2 :: tl)
        omega
      rw [renderFields_cons2, List.append_assoc, List.cons_append, List.cons_append,
        List.append_assoc, List.cons_append, List.cons_append,
        parseFields_step f k
          (renderJ v ++ (',' :: ' ' :: (renderFields (kv2 :: tl) ++ (rcurly :: rest)))),
        parse_renderJ v f
          (',' :: ' ' :: (renderFields (kv2 :: tl) ++ (rcurly :: rest))) hfv.1 rfl]
      simp only [skipWS_cons, isJWS_comma, Bool.false_eq_true, if_false,
        eq_self_iff_true, if_true]
      rw [parseFields_skip_space, parse_renderFields (kv2 :: tl) f rest (by simp) hfv.2]

end

mutual

theorem fuelJ_le_len : (v : JValue) → fuelJ v ≤ (renderJ v).length
  | .null => by simp [fuelJ, renderJ_null]
  | .bool b => by cases b <;> simp [fuelJ, renderJ_true, renderJ_false]
  | .int n => by
    rw [renderJ_int]
    have h1 : 1 ≤ (renderInt n).length := by
      unfold renderInt
      split_ifs
      · simp
      · exact List.length_pos.mpr (ndigits_ne_nil n.toNat)
    simp only [fuelJ]
    omega
  | .str s => by
    simp [fuelJ, renderJ_str, renderString]
  | .arr [] => by simp [fuelJ, fuelItemsJ, renderJ_arr_nil]
  | .arr (x :: xs) => by
    have h := fuelItemsJ_le_len (x :: xs)
    rw [fuelJ_arr, renderJ_arr_cons]
    simp only [List.length_cons, List.length_append, List.length_singleton]
    omega
  | .obj [] => by simp [fuelJ, fuelFieldsJ, renderJ_obj_nil]
  | .obj (kv :: kvs) => by
    have h := fuelFieldsJ_le_len (kv :: kvs)
    rw [fuelJ_obj, renderJ_obj_cons]
    simp only [List.length_cons, List.length_append, List.length_singleton]
    omega

theorem fuelItemsJ_le_len : (xs : List JValue) → fuelItemsJ xs ≤ (renderItems xs).length + 1
  | [] => by simp [fuelItemsJ, renderItems]
  | [x] => by
    have h := fuelJ_le_len x
    have hpos := fuelJ_pos x
    rw [fuelItemsJ_cons, renderItems_single]
    have h0 : fuelItemsJ ([] : List JValue) = 1 := by simp [fuelItemsJ]
    omega
  | x :: y :: tl => by
    have h1 := fuelJ_le_len x
    have h2 := fuelItemsJ_le_len (y :: tl)
    rw [fuelItemsJ_cons, renderItems_cons2]
    simp only [List.length_append, List.length_cons]
    omega

theorem fuelFieldsJ_le_len : (kvs : List (String × JValue)) →
    fuelFieldsJ kvs ≤ (renderFields kvs).length + 1
  | [] => by simp [fuelFieldsJ, renderFields]
  | [(k, v)] => by
    have h := fuelJ_le_len v
    have hpos := fuelJ_pos v
    rw [fuelFieldsJ_cons, renderFields_single]
    have h0 : fuelFieldsJ ([] : List (String × JValue)) = 1 := by simp [fuelFieldsJ]
    simp only [List.length_append, List.length_cons]
    omega
  | (k, v) :: kv2 :: tl => by
    have h1 := fuelJ_le_len v
    have h2 := fuelFieldsJ_le_len (kv2 :: tl)
    rw [fuelFieldsJ_cons, renderFields_cons2]
    simp only [List.length_append, List.length_cons]
    omega

end

/- ================================================================
   Claim theorems — C5, C6
   ================================================================ -/

/-- C5: serializing any produced document to its output line
(`json.dumps(doc, ensure_ascii=False) + '\n'`) and parsing that line back
as JSON reproduces the document exactly — identical values and types, null
staying null and integers staying integers; moreover the serializer leaves
every encodable character (code point ≥ 0x20 other than the quote and the
backslash, so all non-ASCII text) unescaped. -/
theorem c5_roundtrip :
    (∀ r : EnrichedRow,
        json_loads (output_line (create_mongo_document r)) =
          some (create_mongo_document r))
  ∧ (∀ c : Char, 32 ≤ c.toNat → c ≠ '"' → c ≠ '\\' → escChar c = [c]) := by
  constructor
  · intro r
    unfold output_line json_loads
    have hdata : (String.mk (renderJ (create_mongo_document r) ++ ['\n'])).data
        = renderJ (create_mongo_document r) ++ ['\n'] := rfl
    rw [hdata]
    have hlen : fuelJ (create_mongo_document r) ≤
        (renderJ (create_mongo_document r) ++ ['\n']).length + 1 := by
      have h := fuelJ_le_len (create_mongo_document r)
      simp only [List.length_append, List.length_singleton]
      omega
    rw [parse_renderJ (create_mongo_document r) _ ['\n'] hlen rfl]
    rfl
  · intro c h32 hq hb
    unfold escChar
    rw [if_neg hq, if_neg hb,
      if_neg (fun e => by rw [e] at h32; exact absurd h32 (by decide)),
      if_neg (fun e => by rw [e] at h32; exact absurd h32 (by decide)),
      if_neg (fun e => by rw [e] at h32; exact absurd h32 (by decide)),
      if_neg (by omega : ¬ c.toNat = 8), if_neg (by omega : ¬ c.toNat = 12),
      if_neg (by omega : ¬ c.toNat < 32)]

/-- C5 witness: the escape clause applied at the non-ASCII character `é`,
which is emitted literally. -/
theorem c5_witness : escChar 'é' = ['é'] :=
  c5_roundtrip.2 'é' (by decide) (by decide) (by decide)

/-- C6: every produced document's `splits` field is an array of exactly 8
entries whose `split_number` values are 1, 2, ..., 8 in ascending order. -/
theorem c6_splits_shape : ∀ r : EnrichedRow,
    jGet (create_mongo_document r) "splits" =
      some (.arr ((List.range' 1 8).map (splitEntry r)))
  ∧ ((List.range' 1 8).map (splitEntry r)).length = 8
  ∧ ((List.range' 1 8).map (splitEntry r)).map (fun e => jGet e "split_number")
      = [some (.int 1), some (.int 2), some (.int 3), some (.int 4),
         some (.int 5), some (.int 6), some (.int 7), some (.int 8)] := by
  intro r
  exact ⟨rfl, rfl, rfl⟩
